import Mathlib

/-!
Verification development for the SimpleObserver / BindableObserver repository.

The repository is a typed publish/subscribe dispatcher whose observers can be
bound pairwise so that events emitted on one are relayed to the other, with a
bounded recency cache of event ids preventing infinite relay cycles.

Embedded here from the source:
* `src/src/Event.js` — the `Event` base class (`this.id = Guid.create()`),
  with the external `guid-typescript` id generator modelled as a fresh-id
  supply (a strictly increasing counter), which is the library's contract:
  a collision-free unbounded uniqueness space.
* `src/unnamed/part_001` — the `EmitEvent` subclass (`_emitted` field, the
  `emitted`, `name` and `uniqueName` getters).
* `src/lib/EventObserver.d.ts` — only the declaration file of the observer is
  in the repository, so the observer operations (`emit`, the id cache,
  listener registration, relay binding) are modelled from the spec and the
  behavioural documentation comments of the declaration file.
-/

/-- State of the id generator: the next fresh id.  Models the external
`guid-typescript` `Guid.create()` source of globally unique ids as a
fresh-id supply. -/
structure GuidState where
  next : Nat
deriving Repr, DecidableEq

namespace Guid

/-- `Guid.create()`: draw a fresh id, advancing the supply. -/
def create (s : GuidState) : Nat × GuidState :=
  (s.next, ⟨s.next + 1⟩)

end Guid

/-- An `Event` instance as constructed by `src/src/Event.js`:
`this.id = Guid.create(); this.data = data;`.  The dispatch-relevant type key
(the class name used by `getRegisterableEventName`) is carried alongside. -/
structure EventRec where
  id : Nat
  typeKey : String
deriving Repr, DecidableEq

/-- The `Event` constructor of `src/src/Event.js` for a concrete variant with
class name `k`: assigns `Guid.create()` as the id. -/
def Event.construct (s : GuidState) (k : String) : EventRec × GuidState :=
  let p := Guid.create s
  (⟨p.1, k⟩, p.2)

/-- The ids assigned by a sequence of `n` Event constructions sharing the
global id supply (any mix of concrete variants draws from the same supply). -/
def constructIds (s : GuidState) : Nat → List Nat
  | 0 => []
  | n + 1 =>
    let p := Event.construct s "Event"
    p.1.id :: constructIds p.2 n

/-- An `EmitEvent` instance as constructed by `src/unnamed/part_001`:
`super()` assigns a fresh id, and `this._emitted = event` stores the wrapped
event. -/
structure EmitEvent where
  id : Nat
  _emitted : EventRec
deriving Repr, DecidableEq

namespace EmitEvent

/-- `new EmitEvent(event)` from `src/unnamed/part_001`: the super call draws a
fresh id; the wrapped event is stored in `_emitted` unchanged. -/
def new (s : GuidState) (event : EventRec) : EmitEvent × GuidState :=
  let p := Guid.create s
  (⟨p.1, event⟩, p.2)

/-- The `emitted` getter: `return this._emitted`. -/
def emitted (e : EmitEvent) : EventRec :=
  e._emitted

/-- The `name` getter: the constant display name. -/
def name (_ : EmitEvent) : String :=
  "Event Invoked"

/-- The `uniqueName` getter: the constant machine-stable type name. -/
def uniqueName (_ : EmitEvent) : String :=
  "LoganGerber-BindableObserver-EmitEvent"

end EmitEvent

/-- Relay direction flags from `src/lib/EventObserver.d.ts`:
`None = 0, To = 1, From = 2, All = 3`. -/
inductive RelayFlags
  | None
  | To
  | From
  | All
deriving Repr, DecidableEq

/-- Modelled from the spec: the `EventType<T>` argument accepted by the
registration functions of `src/lib/EventObserver.d.ts` — either the variant
class itself (identified by its class name) or a live instance. -/
inductive EventType
  | cls (className : String)
  | inst (e : EventRec)
deriving Repr, DecidableEq

/-- `EventObserver.getRegisterableEventName` as documented in the declaration
file: a class reference contributes its class name, an instance contributes
its own class name (carried as `typeKey`). -/
def getRegisterableEventName : EventType → String
  | EventType.cls n => n
  | EventType.inst e => e.typeKey

/-- Modelled from the spec (§4.2): one listener registration — dispatch key,
callback identity, and the "run once" flag. -/
structure Registration where
  key : String
  fid : Nat
  once : Bool
deriving Repr, DecidableEq

/-- Modelled from the spec: the state of one `EventObserver` — the listener
registry (in registration order), the recency cache of event ids (oldest
first), the cache capacity (`<= 0` meaning unbounded, per the declaration
file), and the relay binding table keyed by peer identity.  The
implementation file of `EventObserver` is not in the repository; only its
declaration file and documentation are, so these operations follow spec
§4.2–§4.5 and the declaration file's doc comments. -/
structure Observer where
  registry : List Registration
  idCache : List Nat
  idCacheLimit : Int
  relays : List (Nat × RelayFlags)
deriving Repr, DecidableEq

namespace Observer

/-- Modelled from the spec: a fresh observer — empty registry, empty cache,
no bindings.  The default cache capacity is not specified; it is taken as
unbounded here and is irrelevant to the claims, which set it explicitly. -/
def init : Observer :=
  ⟨[], [], 0, []⟩

/-- Modelled from the spec (§4.3 `insert`): append the id as most recent;
when the capacity is positive, evict from the oldest end until the size is
at most the capacity. -/
def cacheInsert (o : Observer) (i : Nat) : Observer :=
  if 0 < o.idCacheLimit then
    { o with idCache :=
        (o.idCache ++ [i]).drop ((o.idCache ++ [i]).length - o.idCacheLimit.toNat) }
  else
    { o with idCache := o.idCache ++ [i] }

/-- `getIdCacheLimit` from the declaration file. -/
def getIdCacheLimit (o : Observer) : Int :=
  o.idCacheLimit

/-- `getIdCacheSize` from the declaration file. -/
def getIdCacheSize (o : Observer) : Nat :=
  o.idCache.length

/-- `setIdCacheLimit` as documented in the declaration file: shrinking below
the current number of entries purges the oldest entries; a limit `<= 0`
removes the bound. -/
def setIdCacheLimit (o : Observer) (limit : Int) : Observer :=
  if 0 < limit then
    { o with idCacheLimit := limit,
             idCache := o.idCache.drop (o.idCache.length - limit.toNat) }
  else
    { o with idCacheLimit := limit }

/-- `clearIdCache` from the declaration file. -/
def clearIdCache (o : Observer) : Observer :=
  { o with idCache := [] }

/-- Modelled from the spec (§4.2 `dispatch`): the callback identities
invoked for a key, in registration order. -/
def dispatchIds (o : Observer) (key : String) : List Nat :=
  (o.registry.filter (fun r => r.key == key)).map (fun r => r.fid)

/-- Modelled from the spec (§4.2): after dispatching a key, registrations
marked "run once" for that key are removed. -/
def removeOnce (o : Observer) (key : String) : Observer :=
  { o with registry := o.registry.filter (fun r => !(r.key == key && r.once)) }

/-- `on` (aliased as `addListener`, the name used here since `on` is
reserved in Lean): append a persistent registration under the derived
key. -/
def addListener (o : Observer) (t : EventType) (f : Nat) : Observer :=
  { o with registry := o.registry ++ [⟨getRegisterableEventName t, f, false⟩] }

/-- `once`: append a run-once registration under the derived key. -/
def once (o : Observer) (t : EventType) (f : Nat) : Observer :=
  { o with registry := o.registry ++ [⟨getRegisterableEventName t, f, true⟩] }

/-- `prependListener`: prepend a persistent registration. -/
def prependListener (o : Observer) (t : EventType) (f : Nat) : Observer :=
  { o with registry := ⟨getRegisterableEventName t, f, false⟩ :: o.registry }

/-- Remove the first registration matching the key and callback. -/
def removeFirstReg : List Registration → String → Nat → List Registration
  | [], _, _ => []
  | r :: rs, k, f =>
    if r.key == k && r.fid == f then rs else r :: removeFirstReg rs k f

/-- `removeListener` (and `off`): remove the first matching registration for
the derived key. -/
def removeListener (o : Observer) (t : EventType) (f : Nat) : Observer :=
  { o with registry := removeFirstReg o.registry (getRegisterableEventName t) f }

/-- `hasListener`: membership test under the derived key. -/
def hasListener (o : Observer) (t : EventType) (f : Nat) : Bool :=
  o.registry.any (fun r => r.key == getRegisterableEventName t && r.fid == f)

end Observer

/-- The dispatch key of the wrapper event emitted on every emit (the
declaration file calls the class `EventInvokedEvent`; keys are class
names). -/
def emitEventKey : String :=
  "EventInvokedEvent"

/-- Observable outcome of one `emit` call: the boolean return value, the
callback identities invoked (in order), the ids of the wrapper events
constructed, and the resulting observer and id-supply state. -/
structure EmitResult where
  delivered : Bool
  invoked : List Nat
  emitEvents : List Nat
  observer : Observer
  guid : GuidState
deriving Repr, DecidableEq

/-- `emit` as documented in the declaration file and spec §4.5: if the
event's id is in the cache, return `false` immediately with no dispatch and
no wrapper event; otherwise cache the id, dispatch the event's own key, then
construct a wrapper event with a fresh id and dispatch the wrapper key —
the wrapper's id is not stored in the id cache ("This event's id is not
stored in the id cache").  The return value reflects only the event's own
listeners. -/
def Observer.emit (o : Observer) (s : GuidState) (e : EventRec) : EmitResult :=
  if e.id ∈ o.idCache then
    ⟨false, [], [], o, s⟩
  else
    let o1 := o.cacheInsert e.id
    let called := o1.dispatchIds e.typeKey
    let o2 := o1.removeOnce e.typeKey
    let p := Guid.create s
    let emitCalled := o2.dispatchIds emitEventKey
    let o3 := o2.removeOnce emitEventKey
    ⟨!called.isEmpty, called ++ emitCalled, [p.1], o3, p.2⟩

/-- `bind` per spec §4.4: an existing record for the peer is removed first
(binding replaces, it does not accumulate), then the direction is recorded.
The installed relay listener closures are bookkeeping on the peer's emit
path; relay propagation itself is modelled by `relayRun` below. -/
def Observer.bind (o : Observer) (peer : Nat) (flags : RelayFlags) : Observer :=
  { o with relays := (o.relays.filter (fun r => !(r.1 == peer))) ++ [(peer, flags)] }

/-- `checkBinding` from the declaration file: the recorded direction, or
`none` (\"undefined\") when the peer is not bound. -/
def Observer.checkBinding (o : Observer) (peer : Nat) : Option RelayFlags :=
  (o.relays.find? (fun r => r.1 == peer)).map (fun r => r.2)

/-- `unbind` from the declaration file: delete the binding record; a no-op
when the peer is not bound. -/
def Observer.unbind (o : Observer) (peer : Nat) : Observer :=
  { o with relays := o.relays.filter (fun r => !(r.1 == peer)) }

/-- Operations on one observer, for stating reachability invariants. -/
inductive Op
  | emitOp (e : EventRec)
  | setLimitOp (n : Int)
  | clearCacheOp
  | onOp (t : EventType) (f : Nat)
  | onceOp (t : EventType) (f : Nat)
  | offOp (t : EventType) (f : Nat)
  | bindOp (p : Nat) (d : RelayFlags)
  | unbindOp (p : Nat)

/-- Apply one operation to an observer and the shared id supply. -/
def applyOp (st : Observer × GuidState) : Op → Observer × GuidState
  | Op.emitOp e => ((st.1.emit st.2 e).observer, (st.1.emit st.2 e).guid)
  | Op.setLimitOp n => (st.1.setIdCacheLimit n, st.2)
  | Op.clearCacheOp => (st.1.clearIdCache, st.2)
  | Op.onOp t f => (st.1.addListener t f, st.2)
  | Op.onceOp t f => (st.1.once t f, st.2)
  | Op.offOp t f => (st.1.removeListener t f, st.2)
  | Op.bindOp p d => (st.1.bind p d, st.2)
  | Op.unbindOp p => (st.1.unbind p, st.2)

/-- Run a sequence of operations. -/
def runOps (st : Observer × GuidState) (ops : List Op) : Observer × GuidState :=
  ops.foldl applyOp st

/-- The id-cache invariant: when the capacity is positive, the cache size
never exceeds it. -/
def cacheOk (o : Observer) : Prop :=
  0 < o.idCacheLimit → o.idCache.length ≤ o.idCacheLimit.toNat

/-- The cache contents kept by a capacity bound `t`: the last `t` entries. -/
def boundedCache (t : Nat) (l : List Nat) : List Nat :=
  l.drop (l.length - t)

/-- The number of observers in an `n`-observer network that do not yet hold
the propagating event's id in their recency cache. -/
def uncachedCount (n : Nat) (cached : Fin n → Bool) : Nat :=
  (Finset.univ.filter (fun j => cached j = false)).card

/-- Modelled from the spec (§4.4, §5): synchronous propagation of one event
(identified by its immutable id) through a network of `n` observers whose
relay bindings form the adjacency `adj` (`j ∈ adj i` when a relay listener
installed by some binding forwards events emitted on `i` to `j`'s `emit`,
carrying the wrapped event unchanged).  For the fixed event, `cached i`
records whether observer `i` already holds its id, `queue` holds the pending
`emit` calls, and `log` records in order the observers that have dispatched
the event.  An `emit` on an observer whose cache holds the id is dropped
before dispatch or further relay; otherwise the id is cached, the event
dispatched, and an `emit` queued for every bound peer.  The function is
total because every non-dropped call strictly decreases the number of
uncached observers; this well-foundedness is the termination guarantee for
arbitrary (including cyclic) binding topologies. -/
def relayRun (n : Nat) (adj : Fin n → List (Fin n)) (cached : Fin n → Bool)
    (queue : List (Fin n)) (log : List (Fin n)) : List (Fin n) :=
  match queue with
  | [] => log
  | i :: rest =>
    if h : cached i = true then
      relayRun n adj cached rest log
    else
      relayRun n adj (Function.update cached i true) (rest ++ adj i) (log ++ [i])
termination_by (uncachedCount n cached, queue.length)
decreasing_by
  · apply Prod.Lex.right
    simp
  · apply Prod.Lex.left
    apply Finset.card_lt_card
    have hsub : (Finset.univ.filter (fun j => Function.update cached i true j = false))
        ⊆ Finset.univ.filter (fun j => cached j = false) := by
      intro j hj
      simp only [Finset.mem_filter, Finset.mem_univ, true_and] at hj ⊢
      by_cases hji : j = i
      · subst hji
        simp [Function.update_same] at hj
      · rwa [Function.update_noteq hji] at hj
    refine (Finset.ssubset_iff_of_subset hsub).mpr ⟨i, ?_, ?_⟩
    · simp only [Finset.mem_filter, Finset.mem_univ, true_and]
      simpa using h
    · simp [Function.update_same]

lemma constructIds_mem_ge (s : GuidState) (n : Nat) :
    ∀ x ∈ constructIds s n, s.next ≤ x := by
  induction n generalizing s with
  | zero => intro x hx; simp [constructIds] at hx
  | succ n ih =>
    intro x hx
    simp only [constructIds, Event.construct, Guid.create, List.mem_cons] at hx
    rcases hx with h | h
    · omega
    · have h2 : s.next + 1 ≤ x := ih ⟨s.next + 1⟩ x h
      omega

lemma constructIds_nodup (s : GuidState) (n : Nat) :
    (constructIds s n).Nodup := by
  induction n generalizing s with
  | zero => simp [constructIds]
  | succ n ih =>
    simp only [constructIds, Event.construct, Guid.create, List.nodup_cons]
    refine ⟨fun hmem => ?_, ih ⟨s.next + 1⟩⟩
    have h2 : s.next + 1 ≤ s.next := constructIds_mem_ge ⟨s.next + 1⟩ n s.next hmem
    omega

/-- C6: every construction of an Event assigns a fresh, globally unique id:
any sequence of constructions drawing from the global id supply yields
pairwise distinct ids (the id is a structure field fixed at construction and
no operation rewrites it). -/
theorem event_ids_globally_unique (s : GuidState) (n : Nat) :
    (constructIds s n).Nodup :=
  constructIds_nodup s n

/-- C9: constructing an EmitEvent from an event and reading its `emitted`
payload returns exactly that event; construction stores the payload
unmodified. -/
theorem emitEvent_emitted_roundtrip (s : GuidState) (e : EventRec) :
    (EmitEvent.new s e).1.emitted = e :=
  rfl

/-- C10: every EmitEvent has display name "Event Invoked" and unique type
name "LoganGerber-BindableObserver-EmitEvent"; both are constants, so any two
EmitEvents share the same unique type name (hence the same dispatch key,
which is derived from the type name). -/
theorem emitEvent_names_constant (e₁ e₂ : EmitEvent) :
    e₁.name = "Event Invoked" ∧
    e₁.uniqueName = "LoganGerber-BindableObserver-EmitEvent" ∧
    e₁.uniqueName = e₂.uniqueName :=
  ⟨rfl, rfl, rfl⟩

lemma cacheInsert_mem (o : Observer) (i : Nat) :
    i ∈ (o.cacheInsert i).idCache := by
  unfold Observer.cacheInsert
  split
  · rename_i h
    have ht : 1 ≤ o.idCacheLimit.toNat := by omega
    have hk : (o.idCache ++ [i]).length - o.idCacheLimit.toNat ≤ o.idCache.length := by
      simp only [List.length_append, List.length_singleton]
      omega
    show i ∈ ((o.idCache ++ [i]).drop ((o.idCache ++ [i]).length - o.idCacheLimit.toNat))
    rw [List.drop_append_of_le_length hk]
    simp
  · simp

lemma cacheInsert_subset (o : Observer) (i x : Nat)
    (h : x ∈ (o.cacheInsert i).idCache) : x ∈ o.idCache ++ [i] := by
  unfold Observer.cacheInsert at h
  split at h
  · exact List.mem_of_mem_drop h
  · exact h

lemma emit_of_mem (o : Observer) (s : GuidState) (e : EventRec)
    (h : e.id ∈ o.idCache) : o.emit s e = ⟨false, [], [], o, s⟩ := by
  simp [Observer.emit, h]

lemma emit_mem_idCache (o : Observer) (s : GuidState) (e : EventRec) :
    e.id ∈ (o.emit s e).observer.idCache := by
  unfold Observer.emit
  split
  · rename_i h
    simpa using h
  · exact cacheInsert_mem o e.id

/-- C2: when the event's id is already in the Recency Cache, `emit` returns
`false` immediately, invokes no listener, constructs no EmitEvent, and
leaves the observer (registry, cache, bindings) and the id supply unchanged;
consequently a second `emit` of the same event instance is always a
suppressed no-op, so listeners are only ever delivered to on the first
call. -/
theorem emit_cached_suppressed (o : Observer) (s : GuidState) (e : EventRec) :
    (e.id ∈ o.idCache → o.emit s e = ⟨false, [], [], o, s⟩) ∧
    (o.emit s e).observer.emit (o.emit s e).guid e =
      ⟨false, [], [], (o.emit s e).observer, (o.emit s e).guid⟩ :=
  ⟨fun h => emit_of_mem o s e h,
   emit_of_mem _ _ _ (emit_mem_idCache o s e)⟩

/-- Witness for C2 at a concrete input: an observer whose cache already
holds id 3 suppresses `emit` of an event with id 3. -/
theorem emit_cached_suppressed_witness :
    Observer.emit ⟨[], [3], 0, []⟩ ⟨7⟩ ⟨3, "E"⟩ =
      ⟨false, [], [], ⟨[], [3], 0, []⟩, ⟨7⟩⟩ :=
  (emit_cached_suppressed ⟨[], [3], 0, []⟩ ⟨7⟩ ⟨3, "E"⟩).1 (by decide)

/-- Counterexample for C3 as stated: at a concrete non-suppressed emit, the
constructed EmitEvent's fresh id (5) is not stored in the Recency Cache —
only the wrapped event's id (1) is. -/
theorem emitEvent_id_not_cached_cex :
    (Observer.emit ⟨[], [], 0, []⟩ ⟨5⟩ ⟨1, "X"⟩).emitEvents = [5] ∧
    (Observer.emit ⟨[], [], 0, []⟩ ⟨5⟩ ⟨1, "X"⟩).observer.idCache = [1] ∧
    5 ∉ (Observer.emit ⟨[], [], 0, []⟩ ⟨5⟩ ⟨1, "X"⟩).observer.idCache := by
  refine ⟨rfl, rfl, ?_⟩
  decide

/-- C3 (amended): during every non-suppressed `emit(E)`, exactly one
EmitEvent wrapping E is constructed with a fresh id and dispatched, but its
id is not stored in the Recency Cache — the cache gains only E's id (per the
declaration file: "This event's id is not stored in the id cache"). -/
theorem emitEvent_id_never_cached (o : Observer) (s : GuidState) (e : EventRec)
    (h : e.id ∉ o.idCache)
    (hs : ∀ i ∈ o.idCache, i < s.next) (he : e.id < s.next) :
    (o.emit s e).emitEvents = [s.next] ∧
    (o.emit s e).observer.idCache = (o.cacheInsert e.id).idCache ∧
    s.next ∉ (o.emit s e).observer.idCache := by
  unfold Observer.emit
  rw [if_neg h]
  refine ⟨rfl, rfl, ?_⟩
  intro hmem
  have hmem' : s.next ∈ (o.cacheInsert e.id).idCache := hmem
  rcases List.mem_append.mp (cacheInsert_subset o e.id s.next hmem') with h1 | h1
  · have := hs _ h1
    omega
  · simp only [List.mem_singleton] at h1
    omega

/-- Witness for C3's amended theorem at a concrete input. -/
theorem emitEvent_id_never_cached_witness :
    (Observer.emit ⟨[], [0], 0, []⟩ ⟨5⟩ ⟨1, "X"⟩).emitEvents = [5] ∧
    (Observer.emit ⟨[], [0], 0, []⟩ ⟨5⟩ ⟨1, "X"⟩).observer.idCache =
      ((⟨[], [0], 0, []⟩ : Observer).cacheInsert 1).idCache ∧
    5 ∉ (Observer.emit ⟨[], [0], 0, []⟩ ⟨5⟩ ⟨1, "X"⟩).observer.idCache :=
  emitEvent_id_never_cached ⟨[], [0], 0, []⟩ ⟨5⟩ ⟨1, "X"⟩ (by decide)
    (by intro i hi; simp at hi; subst hi; decide) (by decide)

/-- C5: `setIdCacheLimit n` always makes `getIdCacheLimit` return `n`; with
`n ≤ 0` it leaves the cache contents untouched and removes the bound (every
subsequent insertion grows the cache with no eviction); with `0 < n` and the
current size exceeding `n` it evicts the oldest entries until the size
equals `n`. -/
theorem setIdCacheLimit_spec (o : Observer) (n : Int) :
    (o.setIdCacheLimit n).getIdCacheLimit = n ∧
    (n ≤ 0 → (o.setIdCacheLimit n).idCache = o.idCache ∧
      ∀ i, ((o.setIdCacheLimit n).cacheInsert i).idCache =
        (o.setIdCacheLimit n).idCache ++ [i]) ∧
    (0 < n → n < (o.idCache.length : Int) →
      (o.setIdCacheLimit n).idCache =
        o.idCache.drop (o.idCache.length - n.toNat) ∧
      ((o.setIdCacheLimit n).idCache.length : Int) = n) := by
  refine ⟨?_, ?_, ?_⟩
  · unfold Observer.setIdCacheLimit Observer.getIdCacheLimit
    split <;> rfl
  · intro hn
    have hnot : ¬ (0 : Int) < n := by omega
    refine ⟨by simp [Observer.setIdCacheLimit, hnot], fun i => ?_⟩
    simp [Observer.setIdCacheLimit, Observer.cacheInsert, hnot]
  · intro hn hlen
    have h1 : (o.setIdCacheLimit n).idCache =
        o.idCache.drop (o.idCache.length - n.toNat) := by
      simp [Observer.setIdCacheLimit, hn]
    refine ⟨h1, ?_⟩
    rw [h1, List.length_drop]
    omega

/-- Witness for C5 at concrete inputs: setting the limit to -1 removes the
bound (insertion appends without eviction), and setting the limit to 2 on a
3-entry cache evicts the oldest entry. -/
theorem setIdCacheLimit_spec_witness :
    (((⟨[], [9], 0, []⟩ : Observer).setIdCacheLimit (-1)).cacheInsert 4).idCache =
      ((⟨[], [9], 0, []⟩ : Observer).setIdCacheLimit (-1)).idCache ++ [4] ∧
    ((⟨[], [1, 2, 3], 0, []⟩ : Observer).setIdCacheLimit 2).idCache =
      [1, 2, 3].drop ([1, 2, 3].length - (2 : Int).toNat) ∧
    ((((⟨[], [1, 2, 3], 0, []⟩ : Observer).setIdCacheLimit 2).idCache.length : Nat) : Int) = 2 :=
  ⟨((setIdCacheLimit_spec ⟨[], [9], 0, []⟩ (-1)).2.1 (by decide)).2 4,
   ((setIdCacheLimit_spec ⟨[], [1, 2, 3], 0, []⟩ 2).2.2 (by decide) (by decide)).1,
   ((setIdCacheLimit_spec ⟨[], [1, 2, 3], 0, []⟩ 2).2.2 (by decide) (by decide)).2⟩

/-- C7: the class form and the instance form of an event reference resolve
to the same dispatch key, so registration, membership testing and removal
through either form operate on the same key (a listener registered through
the class is found through an instance), while distinct variant names give
distinct keys. -/
theorem key_derivation_unifies (n m : String) (e : EventRec) (f : Nat) (o : Observer) :
    (e.typeKey = n →
      getRegisterableEventName (EventType.cls n) =
        getRegisterableEventName (EventType.inst e) ∧
      o.addListener (EventType.cls n) f = o.addListener (EventType.inst e) f ∧
      o.once (EventType.cls n) f = o.once (EventType.inst e) f ∧
      o.removeListener (EventType.cls n) f = o.removeListener (EventType.inst e) f ∧
      o.hasListener (EventType.cls n) f = o.hasListener (EventType.inst e) f ∧
      (o.addListener (EventType.cls n) f).hasListener (EventType.inst e) f = true) ∧
    (n ≠ m →
      getRegisterableEventName (EventType.cls n) ≠
        getRegisterableEventName (EventType.cls m)) := by
  constructor
  · intro h
    have hk : getRegisterableEventName (EventType.cls n) =
        getRegisterableEventName (EventType.inst e) := by
      simp [getRegisterableEventName, h]
    refine ⟨hk, by rw [Observer.addListener, Observer.addListener, hk],
      by rw [Observer.once, Observer.once, hk],
      by rw [Observer.removeListener, Observer.removeListener, hk],
      by rw [Observer.hasListener, Observer.hasListener, hk], ?_⟩
    simp [Observer.addListener, Observer.hasListener, getRegisterableEventName, h]
  · intro h
    simpa [getRegisterableEventName] using h

/-- Witness for C7 at a concrete input. -/
theorem key_derivation_unifies_witness :
    ((⟨[], [], 0, []⟩ : Observer).addListener (EventType.cls "MyEvent") 7).hasListener
      (EventType.inst ⟨0, "MyEvent"⟩) 7 = true ∧
    getRegisterableEventName (EventType.cls "MyEvent") ≠
      getRegisterableEventName (EventType.cls "Other") :=
  ⟨((key_derivation_unifies "MyEvent" "Other" ⟨0, "MyEvent"⟩ 7 ⟨[], [], 0, []⟩).1
      rfl).2.2.2.2.2,
   (key_derivation_unifies "MyEvent" "Other" ⟨0, "MyEvent"⟩ 7 ⟨[], [], 0, []⟩).2
      (by decide)⟩

lemma find_after_bind (l : List (Nat × RelayFlags)) (p : Nat) (d : RelayFlags) :
    ((l.filter (fun r => !(r.1 == p))) ++ [(p, d)]).find?
      (fun r => r.1 == p) = some (p, d) := by
  induction l with
  | nil => simp [List.find?]
  | cons a l ih =>
    cases hb : (a.1 == p) with
    | true =>
      simp only [List.filter_cons, hb, Bool.not_true]
      simp
    | false =>
      rw [List.filter_cons, if_pos (by simp [hb] : (!(a.1 == p)) = true),
        List.cons_append, List.find?_cons_of_neg _ (by simp [hb])]
      exact ih

/-- C8: `checkBinding` returns exactly the direction most recently recorded
by `bind`, and `none` ("unbound") both when the peer was never bound and
after `unbind`. -/
theorem checkBinding_follows_bind (o : Observer) (p : Nat) (d : RelayFlags) :
    (o.bind p d).checkBinding p = some d ∧
    (o.unbind p).checkBinding p = none ∧
    ((∀ x ∈ o.relays, x.1 ≠ p) → o.checkBinding p = none) := by
  refine ⟨?_, ?_, ?_⟩
  · simp only [Observer.bind, Observer.checkBinding]
    rw [find_after_bind]
    rfl
  · simp only [Observer.unbind, Observer.checkBinding]
    rw [List.find?_eq_none.mpr]
    · rfl
    · intro x hx
      have hm := List.mem_filter.mp hx
      simpa using hm.2
  · intro h
    simp only [Observer.checkBinding]
    rw [List.find?_eq_none.mpr]
    · rfl
    · intro x hx hpx
      exact h x hx (by simpa using hpx)

/-- Witness for C8 at a concrete input: bind records `To`, rebinding records
`All`, unbinding removes the record, and an unbound peer reads as `none`. -/
theorem checkBinding_follows_bind_witness :
    (((⟨[], [], 0, []⟩ : Observer).bind 1 RelayFlags.To).bind 1 RelayFlags.All).checkBinding 1 =
      some RelayFlags.All ∧
    ((((⟨[], [], 0, []⟩ : Observer).bind 1 RelayFlags.To).unbind 1)).checkBinding 1 = none ∧
    (⟨[], [], 0, []⟩ : Observer).checkBinding 1 = none :=
  ⟨(checkBinding_follows_bind ((⟨[], [], 0, []⟩ : Observer).bind 1 RelayFlags.To) 1
      RelayFlags.All).1,
   (checkBinding_follows_bind ((⟨[], [], 0, []⟩ : Observer).bind 1 RelayFlags.To) 1
      RelayFlags.To).2.1,
   (checkBinding_follows_bind (⟨[], [], 0, []⟩ : Observer) 1 RelayFlags.To).2.2
      (by intro x hx; simp at hx)⟩

lemma cacheInsert_idCacheLimit (o : Observer) (i : Nat) :
    (o.cacheInsert i).idCacheLimit = o.idCacheLimit := by
  unfold Observer.cacheInsert
  split <;> rfl

lemma cacheInsert_registry (o : Observer) (i : Nat) :
    (o.cacheInsert i).registry = o.registry := by
  unfold Observer.cacheInsert
  split <;> rfl

lemma cacheInsert_cacheOk (o : Observer) (i : Nat) : cacheOk (o.cacheInsert i) := by
  intro hpos
  rw [cacheInsert_idCacheLimit] at hpos ⊢
  unfold Observer.cacheInsert
  rw [if_pos hpos]
  show ((o.idCache ++ [i]).drop
      ((o.idCache ++ [i]).length - o.idCacheLimit.toNat)).length ≤ o.idCacheLimit.toNat
  rw [List.length_drop]
  omega

lemma setIdCacheLimit_cacheOk (o : Observer) (n : Int) :
    cacheOk (o.setIdCacheLimit n) := by
  intro hpos
  unfold Observer.setIdCacheLimit at hpos ⊢
  by_cases h : 0 < n
  · rw [if_pos h] at hpos ⊢
    show (o.idCache.drop (o.idCache.length - n.toNat)).length ≤ n.toNat
    rw [List.length_drop]
    omega
  · rw [if_neg h] at hpos
    exact absurd hpos h

lemma applyOp_cacheOk (st : Observer × GuidState) (op : Op) (h : cacheOk st.1) :
    cacheOk (applyOp st op).1 := by
  cases op with
  | emitOp e =>
    show cacheOk (st.1.emit st.2 e).observer
    unfold Observer.emit
    split
    · exact h
    · exact cacheInsert_cacheOk st.1 e.id
  | setLimitOp n => exact setIdCacheLimit_cacheOk st.1 n
  | clearCacheOp =>
    intro hpos
    show (([] : List Nat)).length ≤ _
    simp
  | onOp t f => exact h
  | onceOp t f => exact h
  | offOp t f => exact h
  | bindOp p d => exact h
  | unbindOp p => exact h

lemma runOps_cacheOk (ops : List Op) :
    ∀ st : Observer × GuidState, cacheOk st.1 → cacheOk (runOps st ops).1 := by
  induction ops with
  | nil => intro st h; exact h
  | cons op ops ih => intro st h; exact ih _ (applyOp_cacheOk st op h)

lemma cacheInsert_evicts_oldest (o : Observer) (i : Nat)
    (hpos : 0 < o.idCacheLimit) (hfull : o.idCache.length = o.idCacheLimit.toNat) :
    (o.cacheInsert i).idCache = o.idCache.tail ++ [i] := by
  unfold Observer.cacheInsert
  rw [if_pos hpos]
  show (o.idCache ++ [i]).drop ((o.idCache ++ [i]).length - o.idCacheLimit.toNat) = _
  have hlen : (o.idCache ++ [i]).length - o.idCacheLimit.toNat = 1 := by
    simp only [List.length_append, List.length_singleton]
    omega
  have hone : 1 ≤ o.idCache.length := by omega
  rw [hlen, List.drop_append_of_le_length hone, List.drop_one]

lemma boundedCache_append_right (t : Nat) (a b : List Nat) :
    boundedCache t (boundedCache t a ++ b) = boundedCache t (a ++ b) := by
  unfold boundedCache
  by_cases h : a.length ≤ t
  · have h0 : a.length - t = 0 := by omega
    rw [h0, List.drop_zero]
  · have hk : a.length - t ≤ a.length := by omega
    have hlen1 : (a.drop (a.length - t)).length = t := by
      rw [List.length_drop]; omega
    have hL : (a.drop (a.length - t) ++ b).length - t = b.length := by
      rw [List.length_append, hlen1]; omega
    have hR : (a ++ b).length - t = (a.length - t) + b.length := by
      rw [List.length_append]; omega
    rw [hL, hR, ← List.drop_drop, List.drop_append_of_le_length hk]

lemma emit_not_mem_components (o : Observer) (s : GuidState) (e : EventRec)
    (h : e.id ∉ o.idCache) :
    (o.emit s e).observer.idCache = (o.cacheInsert e.id).idCache ∧
    (o.emit s e).observer.idCacheLimit = o.idCacheLimit ∧
    ∀ r ∈ o.registry, r.once = false → r ∈ (o.emit s e).observer.registry := by
  unfold Observer.emit
  rw [if_neg h]
  refine ⟨rfl, cacheInsert_idCacheLimit o e.id, ?_⟩
  intro r hr hro
  show r ∈ (((o.cacheInsert e.id).removeOnce e.typeKey).removeOnce emitEventKey).registry
  simp only [Observer.removeOnce, List.mem_filter, cacheInsert_registry]
  exact ⟨⟨hr, by simp [hro]⟩, by simp [hro]⟩

lemma emit_delivered_of_listener (o : Observer) (s : GuidState) (e : EventRec)
    (h : e.id ∉ o.idCache) (r : Registration)
    (hr : r ∈ o.registry) (hk : r.key = e.typeKey) :
    (o.emit s e).delivered = true := by
  unfold Observer.emit
  rw [if_neg h]
  show (!((o.cacheInsert e.id).dispatchIds e.typeKey).isEmpty) = true
  have hmem : r ∈ (o.cacheInsert e.id).registry.filter (fun q => q.key == e.typeKey) := by
    rw [cacheInsert_registry]
    exact List.mem_filter.mpr ⟨hr, by simp [hk]⟩
  have hne : (o.cacheInsert e.id).dispatchIds e.typeKey ≠ [] := by
    unfold Observer.dispatchIds
    intro hcontra
    rw [List.map_eq_nil_iff] at hcontra
    rw [hcontra] at hmem
    simp at hmem
  rw [List.isEmpty_eq_false.mpr hne]
  rfl

lemma runOps_emit_cache (key : String) (ids : List Nat) :
    ∀ (o : Observer) (s : GuidState),
    0 < o.idCacheLimit →
    o.idCache.length ≤ o.idCacheLimit.toNat →
    ids.Nodup → (∀ x ∈ ids, x ∉ o.idCache) →
    (runOps (o, s) (ids.map (fun y => Op.emitOp ⟨y, key⟩))).1.idCache
        = boundedCache o.idCacheLimit.toNat (o.idCache ++ ids) ∧
    (runOps (o, s) (ids.map (fun y => Op.emitOp ⟨y, key⟩))).1.idCacheLimit
        = o.idCacheLimit ∧
    ∀ r ∈ o.registry, r.once = false →
      r ∈ (runOps (o, s) (ids.map (fun y => Op.emitOp ⟨y, key⟩))).1.registry := by
  induction ids with
  | nil =>
    intro o s hpos hok _ _
    refine ⟨?_, rfl, fun r hr _ => hr⟩
    show o.idCache = boundedCache o.idCacheLimit.toNat (o.idCache ++ [])
    unfold boundedCache
    rw [List.append_nil]
    have h0 : o.idCache.length - o.idCacheLimit.toNat = 0 := by omega
    rw [h0, List.drop_zero]
  | cons x rest ih =>
    intro o s hpos hok hnd hfresh
    have hx : x ∉ o.idCache := hfresh x (by simp)
    obtain ⟨hC, hL, hR⟩ := emit_not_mem_components o s ⟨x, key⟩ hx
    set o1 := (o.emit s ⟨x, key⟩).observer with ho1
    set s1 := (o.emit s ⟨x, key⟩).guid with hs1
    have hCache : o1.idCache = boundedCache o.idCacheLimit.toNat (o.idCache ++ [x]) := by
      rw [hC]
      unfold Observer.cacheInsert
      rw [if_pos hpos]
      rfl
    have hstep : runOps (o, s) ((x :: rest).map (fun y => Op.emitOp ⟨y, key⟩))
        = runOps (o1, s1) (rest.map (fun y => Op.emitOp ⟨y, key⟩)) := rfl
    have hpos1 : 0 < o1.idCacheLimit := by rw [hL]; exact hpos
    have hok1 : o1.idCache.length ≤ o1.idCacheLimit.toNat := by
      rw [hL, hCache]
      unfold boundedCache
      rw [List.length_drop]
      omega
    have hnd1 : rest.Nodup := (List.nodup_cons.mp hnd).2
    have hfresh1 : ∀ y ∈ rest, y ∉ o1.idCache := by
      intro y hy hmem
      rw [hC] at hmem
      rcases List.mem_append.mp (cacheInsert_subset o x y hmem) with h1 | h1
      · exact hfresh y (by simp [hy]) h1
      · simp only [List.mem_singleton] at h1
        subst h1
        exact (List.nodup_cons.mp hnd).1 hy
    obtain ⟨ih1, ih2, ih3⟩ := ih o1 s1 hpos1 hok1 hnd1 hfresh1
    refine ⟨?_, ?_, ?_⟩
    · rw [hstep, ih1, hL, hCache, boundedCache_append_right,
        List.append_assoc, List.singleton_append]
    · rw [hstep, ih2, hL]
    · intro r hr hro
      rw [hstep]
      exact ih3 r (hR r hr hro) hro

/-- C4: (a) from any state satisfying the cache invariant, every reachable
state satisfies it — when the capacity is positive the number of cached ids
never exceeds it; (b) when an insertion into a full cache would exceed the
capacity, the least-recently-inserted id (the head) is the one evicted;
(c) consequently, after setting the capacity to `n` on a fresh observer with
a listener registered and emitting `n+1` distinct events, the oldest id has
been evicted from the cache, and re-emitting the original event is delivered
again. -/
theorem idCache_bounded_and_evicts :
    (∀ (st : Observer × GuidState) (ops : List Op),
      cacheOk st.1 → cacheOk (runOps st ops).1) ∧
    (∀ (o : Observer) (i : Nat), 0 < o.idCacheLimit →
      o.idCache.length = o.idCacheLimit.toNat →
      (o.cacheInsert i).idCache = o.idCache.tail ++ [i]) ∧
    (∀ (n : Int) (key : String) (f x : Nat) (rest : List Nat) (s : GuidState),
      0 < n → (x :: rest).Nodup → rest.length = n.toNat →
      x ∉ (runOps (Observer.init, s)
            ([Op.setLimitOp n, Op.onOp (EventType.cls key) f]
              ++ (x :: rest).map (fun y => Op.emitOp ⟨y, key⟩))).1.idCache ∧
      ((runOps (Observer.init, s)
            ([Op.setLimitOp n, Op.onOp (EventType.cls key) f]
              ++ (x :: rest).map (fun y => Op.emitOp ⟨y, key⟩))).1.emit
          (runOps (Observer.init, s)
            ([Op.setLimitOp n, Op.onOp (EventType.cls key) f]
              ++ (x :: rest).map (fun y => Op.emitOp ⟨y, key⟩))).2
          ⟨x, key⟩).delivered = true) := by
  refine ⟨fun st ops h => runOps_cacheOk ops st h, cacheInsert_evicts_oldest, ?_⟩
  intro n key f x rest s hn hnd hrest
  have hinit : (runOps (Observer.init, s)
      [Op.setLimitOp n, Op.onOp (EventType.cls key) f])
      = (⟨[⟨key, f, false⟩], [], n, []⟩, s) := by
    show ((((Observer.init).setIdCacheLimit n).addListener (EventType.cls key) f), s)
        = (⟨[⟨key, f, false⟩], [], n, []⟩, s)
    unfold Observer.init Observer.setIdCacheLimit Observer.addListener
    rw [if_pos hn]
    simp [List.drop_nil, getRegisterableEventName]
  have hsplit : runOps (Observer.init, s)
      ([Op.setLimitOp n, Op.onOp (EventType.cls key) f]
        ++ (x :: rest).map (fun y => Op.emitOp ⟨y, key⟩))
      = runOps (⟨[⟨key, f, false⟩], [], n, []⟩, s)
          ((x :: rest).map (fun y => Op.emitOp ⟨y, key⟩)) := by
    show runOps (runOps (Observer.init, s)
        [Op.setLimitOp n, Op.onOp (EventType.cls key) f])
        ((x :: rest).map (fun y => Op.emitOp ⟨y, key⟩)) = _
    rw [hinit]
  set o0 : Observer := ⟨[⟨key, f, false⟩], [], n, []⟩ with ho0
  have hpos : 0 < o0.idCacheLimit := hn
  have hok : o0.idCache.length ≤ o0.idCacheLimit.toNat := by
    show (0 : Nat) ≤ _
    omega
  have hfresh : ∀ y ∈ (x :: rest), y ∉ o0.idCache := by
    intro y _ hy
    simp [ho0] at hy
  obtain ⟨hC, hL, hR⟩ := runOps_emit_cache key (x :: rest) o0 s hpos hok hnd hfresh
  have hcache : (runOps (o0, s) ((x :: rest).map (fun y => Op.emitOp ⟨y, key⟩))).1.idCache
      = rest := by
    rw [hC]
    show boundedCache n.toNat ([] ++ (x :: rest)) = rest
    unfold boundedCache
    rw [List.nil_append]
    have h1 : (x :: rest).length - n.toNat = 1 := by
      simp only [List.length_cons]
      omega
    rw [h1, List.drop_one, List.tail_cons]
  have hxout : x ∉ (runOps (Observer.init, s)
      ([Op.setLimitOp n, Op.onOp (EventType.cls key) f]
        ++ (x :: rest).map (fun y => Op.emitOp ⟨y, key⟩))).1.idCache := by
    rw [hsplit, hcache]
    exact (List.nodup_cons.mp hnd).1
  refine ⟨hxout, ?_⟩
  rw [hsplit] at hxout ⊢
  exact emit_delivered_of_listener _ _ ⟨x, key⟩ hxout ⟨key, f, false⟩
    (hR ⟨key, f, false⟩ (by simp [ho0]) rfl) rfl

/-- Witness for C4 at concrete inputs: capacity 1, two distinct events
emitted (ids 0 then 1); id 0 has been evicted and re-emitting the original
event is delivered to the registered listener. -/
theorem idCache_bounded_and_evicts_witness :
    ((⟨[], [5, 6], 2, []⟩ : Observer).cacheInsert 7).idCache = [5, 6].tail ++ [7] ∧
    (0 ∉ (runOps (Observer.init, ⟨10⟩)
            ([Op.setLimitOp 1, Op.onOp (EventType.cls "E") 4]
              ++ ([0, 1] : List Nat).map (fun y => Op.emitOp ⟨y, "E"⟩))).1.idCache ∧
      ((runOps (Observer.init, ⟨10⟩)
            ([Op.setLimitOp 1, Op.onOp (EventType.cls "E") 4]
              ++ ([0, 1] : List Nat).map (fun y => Op.emitOp ⟨y, "E"⟩))).1.emit
          (runOps (Observer.init, ⟨10⟩)
            ([Op.setLimitOp 1, Op.onOp (EventType.cls "E") 4]
              ++ ([0, 1] : List Nat).map (fun y => Op.emitOp ⟨y, "E"⟩))).2
          ⟨0, "E"⟩).delivered = true) :=
  ⟨idCache_bounded_and_evicts.2.1 ⟨[], [5, 6], 2, []⟩ 7 (by decide) (by decide),
   idCache_bounded_and_evicts.2.2 1 "E" 4 0 [1] ⟨10⟩ (by decide) (by decide) (by decide)⟩

lemma relayRun_nodup (n : Nat) (adj : Fin n → List (Fin n)) (cached : Fin n → Bool)
    (queue : List (Fin n)) (log : List (Fin n))
    (h1 : log.Nodup) (h2 : ∀ i ∈ log, cached i = true) :
    (relayRun n adj cached queue log).Nodup := by
  match queue with
  | [] =>
    simp only [relayRun]
    exact h1
  | i :: rest =>
    simp only [relayRun]
    by_cases hc : cached i = true
    · rw [dif_pos hc]
      exact relayRun_nodup n adj cached rest log h1 h2
    · rw [dif_neg hc]
      apply relayRun_nodup
      · rw [List.nodup_append]
        refine ⟨h1, List.nodup_singleton i, ?_⟩
        intro a ha hai
        rw [List.mem_singleton] at hai
        subst hai
        exact hc (h2 a ha)
      · intro j hj
        rcases List.mem_append.mp hj with hjl | hji
        · by_cases hji' : j = i
          · subst hji'
            simp [Function.update_same]
          · rw [Function.update_noteq hji']
            exact h2 j hjl
        · rw [List.mem_singleton] at hji
          subst hji
          simp [Function.update_same]
termination_by (uncachedCount n cached, queue.length)
decreasing_by
  · apply Prod.Lex.right
    simp
  · apply Prod.Lex.left
    apply Finset.card_lt_card
    have hsub : (Finset.univ.filter (fun j => Function.update cached i true j = false))
        ⊆ Finset.univ.filter (fun j => cached j = false) := by
      intro j hj
      simp only [Finset.mem_filter, Finset.mem_univ, true_and] at hj ⊢
      by_cases hji : j = i
      · subst hji
        simp [Function.update_same] at hj
      · rwa [Function.update_noteq hji] at hj
    refine (Finset.ssubset_iff_of_subset hsub).mpr ⟨i, ?_, ?_⟩
    · simp only [Finset.mem_filter, Finset.mem_univ, true_and]
      simpa using hc
    · simp [Function.update_same]

/-- C1: for every binding topology over `n` observers (any adjacency,
including bidirectional pairs and multi-peer graphs) and every originating
observer, propagating an event through the relay graph dispatches it at most
once per observer: the dispatch log has no duplicates and its length never
exceeds `n`.  In particular an event relayed A→B→A is recognized by its
unchanged id on its second arrival at A and dropped before dispatch or
further relay, and relaying always terminates (`relayRun` is total by
well-founded recursion on the number of observers that have not yet cached
the id). -/
theorem relay_no_infinite_emission (n : Nat) (adj : Fin n → List (Fin n))
    (start : Fin n) :
    (relayRun n adj (fun _ => false) [start] []).Nodup ∧
    (relayRun n adj (fun _ => false) [start] []).length ≤ n := by
  have h := relayRun_nodup n adj (fun _ => false) [start] []
    List.nodup_nil (by intro i hi; simp at hi)
  refine ⟨h, ?_⟩
  have := h.length_le_card
  simpa using this
